import Mathlib

/-!
Shallow embedding of the sfcc-d CLI (source: src/unnamed/part_001) together
with proofs about its caching layer, entity resolution, batch dispatch,
code-version activation and credits time-range normalization.
-/

set_option maxHeartbeats 1000000

namespace SfccD

/-- JSON values, as produced by a successful JSON.parse of a stored string. -/
inductive Json where
  | null
  | bool (b : Bool)
  | num (n : Int)
  | str (s : String)
  | arr (elems : List Json)
  | obj (fields : List (String × Json))

/-- Abstraction of a raw string held in localStorage under a key, keeping
exactly the distinctions the code path of useCachedResult observes:
the empty string is falsy (the cache block is skipped), a non-empty string
either parses to a Json value or makes JSON.parse throw. -/
inductive RawStored where
  | emptyStr
  | parsed (j : Json)
  | unparsable

/-- Ways a useCachedResult call can fail: a thrown JS error while reading the
cached entry (JSON.parse throw, or destructuring a null parse result), or a
rejection of the compute promise. -/
inductive CacheError where
  | jsThrow
  | computeFailed (msg : String)
deriving DecidableEq

/-- Observable outcome of one useCachedResult call: the returned value or
error, the final localStorage contents, and whether the compute thunk ran. -/
structure CacheResult where
  result : Except CacheError (Option Json)
  store : String → Option RawStored
  invoked : Bool

/-- The entry shape the code writes: JSON.stringify of value and exp,
src/unnamed/part_001 line 62. -/
def mkEntryJson (v : Json) (e : Int) : Json :=
  .obj [("value", v), ("exp", .num e)]

/-- First-match association lookup in a JSON object field list. -/
def jsonField (fields : List (String × Json)) (k : String) : Option Json :=
  match fields with
  | [] => none
  | (k₁, v) :: rest => if k₁ = k then some v else jsonField rest k

/-- JS property access on a parsed JSON value; none plays undefined. -/
def jsGet (j : Json) (k : String) : Option Json :=
  match j with
  | .obj fields => jsonField fields k
  | _ => none

/-- A JS number produced by the ToNumber coercion of a JSON value: NaN, an
infinity, or the exact value m times ten to the e. Exact integer-scaled
arithmetic stands in for float64 here, consistently with Date.now() being
modeled as an integer; float rounding of extreme literals is outside the
model. -/
inductive JsNumber where
  | nan
  | posInf
  | negInf
  | dec (m e : Int)

/-- The ECMAScript WhiteSpace and LineTerminator characters that
StringToNumber trims. -/
def jsWhitespace (c : Char) : Bool :=
  let v := c.toNat
  v == 0x9 || v == 0xA || v == 0xB || v == 0xC || v == 0xD || v == 0x20 ||
    v == 0xA0 || v == 0x1680 || (decide (0x2000 ≤ v) && decide (v ≤ 0x200A)) ||
    v == 0x2028 || v == 0x2029 || v == 0x202F || v == 0x205F || v == 0x3000 ||
    v == 0xFEFF

/-- Strip leading and trailing JS whitespace. -/
def jsTrim (cs : List Char) : List Char :=
  ((cs.dropWhile jsWhitespace).reverse.dropWhile jsWhitespace).reverse

/-- Value of a run of decimal digits. -/
def natOfDigits (ds : List Char) : Nat :=
  ds.foldl (fun a c => a * 10 + (c.toNat - 48)) 0

/-- Value of a hexadecimal digit character. -/
def hexVal (c : Char) : Option Nat :=
  if c.isDigit then some (c.toNat - 48)
  else if 'a' ≤ c ∧ c ≤ 'f' then some (c.toNat - 87)
  else if 'A' ≤ c ∧ c ≤ 'F' then some (c.toNat - 55)
  else none

/-- Value of a digit character below the given radix. -/
def digitInRadix (radix : Nat) (c : Char) : Option Nat :=
  match hexVal c with
  | some d => if d < radix then some d else none
  | none => none

/-- Value of a non-empty run of digits in the given radix; none when any
character is out of range. -/
def parseRadix (radix : Nat) (cs : List Char) : Option Nat :=
  match cs with
  | [] => none
  | _ =>
      cs.foldl
        (fun acc c =>
          match acc, digitInRadix radix c with
          | some a, some d => some (a * radix + d)
          | _, _ => none)
        (some 0)

/-- The NonDecimalIntegerLiteral alternatives of StringToNumber: hex, octal
and binary literals, which admit no sign. -/
def parseNonDecimal (cs : List Char) : Option Nat :=
  match cs with
  | '0' :: p :: rest =>
      if p = 'x' ∨ p = 'X' then parseRadix 16 rest
      else if p = 'o' ∨ p = 'O' then parseRadix 8 rest
      else if p = 'b' ∨ p = 'B' then parseRadix 2 rest
      else none
  | _ => none

/-- The optional ExponentPart closing a StrDecimalLiteral; it must consume
the whole remaining input. -/
def parseExponent (cs : List Char) : Option Int :=
  match cs with
  | [] => some 0
  | e :: rest =>
      if e = 'e' ∨ e = 'E' then
        let sgn : Int × List Char :=
          match rest with
          | '+' :: r => (1, r)
          | '-' :: r => (-1, r)
          | r => (1, r)
        let ds := sgn.2.takeWhile Char.isDigit
        let rest3 := sgn.2.dropWhile Char.isDigit
        if ds.isEmpty ∨ ¬rest3.isEmpty then none
        else some (sgn.1 * natOfDigits ds)
      else none

/-- Value of a StrUnsignedDecimalLiteral: the Infinity keyword, or decimal
digits with an optional fraction and exponent; the mantissa collects the
integer and fraction digits and the exponent is shifted by the fraction
length. -/
inductive UnsignedResult where
  | infinity
  | finite (m : Nat) (e : Int)

/-- Parse a StrUnsignedDecimalLiteral covering the whole input. -/
def parseUnsignedDec (cs : List Char) : Option UnsignedResult :=
  if cs = ['I', 'n', 'f', 'i', 'n', 'i', 't', 'y'] then some .infinity
  else
    let intDigits := cs.takeWhile Char.isDigit
    let rest1 := cs.dropWhile Char.isDigit
    match rest1 with
    | '.' :: rest2 =>
        let fracDigits := rest2.takeWhile Char.isDigit
        let rest3 := rest2.dropWhile Char.isDigit
        if intDigits.isEmpty ∧ fracDigits.isEmpty then none
        else
          match parseExponent rest3 with
          | some ex =>
              some (.finite (natOfDigits (intDigits ++ fracDigits))
                (ex - fracDigits.length))
          | none => none
    | rest =>
        if intDigits.isEmpty then none
        else
          match parseExponent rest with
          | some ex => some (.finite (natOfDigits intDigits) ex)
          | none => none

/-- StringToNumber on a trimmed character list: empty is zero, a non-decimal
integer literal carries no sign, otherwise an optional sign precedes a
StrUnsignedDecimalLiteral, and anything else is NaN. -/
def strToNumberCore (t : List Char) : JsNumber :=
  if t.isEmpty then .dec 0 0
  else
    match parseNonDecimal t with
    | some n => .dec n 0
    | none =>
        let signed : Int × List Char :=
          match t with
          | '+' :: r => (1, r)
          | '-' :: r => (-1, r)
          | r => (1, r)
        match parseUnsignedDec signed.2 with
        | some .infinity => if signed.1 = 1 then .posInf else .negInf
        | some (.finite m e) => .dec (signed.1 * m) e
        | none => .nan

/-- The ECMAScript StringToNumber operation. -/
def jsStringToNumber (s : String) : JsNumber :=
  strToNumberCore (jsTrim s.toList)

mutual
/-- ToString of an array element inside Array.prototype.join: null becomes
the empty string, numbers print in plain decimal (faithful below ten to the
twenty-first power, where JS switches to exponent form), nested arrays join
recursively, and plain objects print as the object tag. -/
def jsArrayElemString : Json → String
  | .null => ""
  | .bool b => if b then "true" else "false"
  | .num n => toString n
  | .str s => s
  | .arr xs => jsJoinArr xs
  | .obj _ => "[object Object]"
/-- Array.prototype.toString, a comma join of the element strings. -/
def jsJoinArr : List Json → String
  | [] => ""
  | [x] => jsArrayElemString x
  | x :: xs => jsArrayElemString x ++ "," ++ jsJoinArr xs
end

/-- ToNumber of the exp property read from the parsed entry: an absent
property is undefined hence NaN, null is zero, booleans are zero and one,
numbers are themselves, strings go through StringToNumber, arrays are first
converted to their join string, and plain objects are NaN via their object
tag string. -/
def jsToNumber : Option Json → JsNumber
  | none => .nan
  | some .null => .dec 0 0
  | some (.bool b) => .dec (if b then 1 else 0) 0
  | some (.num n) => .dec n 0
  | some (.str s) => jsStringToNumber s
  | some (.arr xs) => jsStringToNumber (jsJoinArr xs)
  | some (.obj _) => .nan

/-- The test Date.now() < exp, src/unnamed/part_001 line 55: exp is coerced
with ToNumber and compared; a NaN comparison is false. The scaled comparison
against m times ten to the e multiplies both sides into integers. -/
def jsLt (now : Int) (v : Option Json) : Bool :=
  match jsToNumber v with
  | .nan => false
  | .posInf => true
  | .negInf => false
  | .dec m e =>
      match e with
      | .ofNat k => decide (now < m * (10 : Int) ^ k)
      | .negSucc k => decide (now * (10 : Int) ^ (k + 1) < m)

/-- localStorage.setItem on one key. -/
def updateStore (store : String → Option RawStored) (key : String)
    (r : RawStored) : String → Option RawStored :=
  fun k => if k = key then some r else store k

/-- Embeds useCachedResult, src/unnamed/part_001 lines 38 to 67.
The compute thunk is passed as the Except value of its single evaluation,
and now is the millisecond clock reading during the call. -/
def useCachedResult (store : String → Option RawStored) (storageKey : String)
    (now ttlMs : Int) (compute : Except String Json) (invalidate : Bool) :
    CacheResult :=
  let recompute : CacheResult :=
    match compute with
    | .error e => ⟨.error (.computeFailed e), store, true⟩
    | .ok v =>
        ⟨.ok (some v),
          updateStore store storageKey (.parsed (mkEntryJson v (now + ttlMs))),
          true⟩
  match store storageKey with
  | none => recompute
  | some .emptyStr => recompute
  | some .unparsable =>
      if invalidate then recompute else ⟨.error .jsThrow, store, false⟩
  | some (.parsed j) =>
      if invalidate then recompute
      else
        match j with
        | .null => ⟨.error .jsThrow, store, false⟩
        | _ =>
            if jsLt now (jsGet j "exp") then ⟨.ok (jsGet j "value"), store, false⟩
            else recompute

/-- Link collection of a sandbox, src/unnamed/part_001 lines 104 to 110. -/
structure SandboxLinks where
  bm : String
  ocapi : String
  impex : String
  code : String
  logs : String
deriving DecidableEq

/-- Version block of a sandbox, src/unnamed/part_001 lines 95 to 98. -/
structure SandboxVersions where
  app : String
  web : String
deriving DecidableEq

/-- The SandboxInfo record, src/unnamed/part_001 lines 91 to 111. -/
structure SandboxInfo where
  id : String
  realm : String
  -- the source field is called instance, a reserved word in Lean
  instanceName : String
  versions : SandboxVersions
  resourceProfile : String
  state : String
  createdAt : String
  createdBy : String
  hostName : String
  links : SandboxLinks
deriving DecidableEq

/-- Substring test on character lists, the semantics of the JS
String.prototype.includes call used by the resolver. -/
def charsContain (needle : List Char) : List Char → Bool
  | [] => needle.isEmpty
  | c :: rest => needle.isPrefixOf (c :: rest) || charsContain needle rest

/-- hay.includes(needle) in JS. -/
def strIncludes (hay needle : String) : Bool :=
  charsContain needle.toList hay.toList

/-- Embeds getSandboxList, src/unnamed/part_001 lines 113 to 138, from the
parsed response body: a body-level code and a data array. The sort call on
line 126 compares hostName with localeCompare, modeled as the lexicographic
string order (a stable sort under a total comparator is unique, so mergeSort
computes the same list as the JS in-place sort returns). none models the
process exit taken on a non-200 body code. -/
def getSandboxList (code : Nat) (data : List SandboxInfo) :
    Option (List SandboxInfo) :=
  if code = 200 then
    some (data.mergeSort (fun a b => decide (a.hostName ≤ b.hostName)))
  else none

/-- Embeds getSandboxesByString, src/unnamed/part_001 lines 225 to 229, with
the module-level sandboxList passed explicitly. -/
def getSandboxesByString (sandboxList : List SandboxInfo) (findStr : String) :
    List SandboxInfo :=
  sandboxList.filter (fun sb => strIncludes sb.hostName findStr || sb.id == findStr)

/-- The response to one sandbox operation POST: the HTTP status, the
body-level code, and the body-level error message. -/
structure OperationResponse where
  status : Nat
  code : Nat
  errorMessage : String
deriving DecidableEq

/-- A per-entity outcome logged by runSandboxOperation. -/
inductive SandboxOpResult where
  | success (hostName : String)
  | failure (hostName : String) (code : Nat) (msg : String)
deriving DecidableEq

/-- What one runSandboxOperation call does to the process. -/
inductive StepOutcome where
  | exited
  | crashed
  | logged (r : SandboxOpResult)
deriving DecidableEq

/-- Embeds runSandboxOperation, src/unnamed/part_001 lines 160 to 196, with
the response of the remote call passed in. Line 161 looks the id up with a
non-null assertion; when the lookup fails, the hostName access on the
success-log path (line 188) throws, modeled as crashed, while the
failure-log path uses optional chaining with a fallback (line 192).
Lines 178 to 183 exit the process on an HTTP status outside 200 and 201. -/
def runSandboxOperation (sandboxList : List SandboxInfo) (sandboxId : String)
    (resp : OperationResponse) : StepOutcome :=
  let sb? := sandboxList.find? (fun sb => sb.id == sandboxId)
  if resp.status ≠ 200 ∧ resp.status ≠ 201 then .exited
  else if resp.code = 201 then
    match sb? with
    | some sb => .logged (.success sb.hostName)
    | none => .crashed
  else
    .logged (.failure
      (match sb? with
       | some sb => if sb.hostName = "" then sandboxId else sb.hostName
       | none => sandboxId)
      resp.code resp.errorMessage)

/-- Embeds the batch loop of buildSandboxOperationCommand, src/unnamed/
part_001 lines 366 to 375: each resolved target is processed in order with
runSandboxOperation; an exit or crash terminates the loop. The result is the
list of per-entity logged outcomes together with an aborted flag. -/
def dispatchBatch (sandboxList : List SandboxInfo)
    (targets : List (SandboxInfo × OperationResponse)) :
    List SandboxOpResult × Bool :=
  match targets with
  | [] => ([], false)
  | (sb, resp) :: rest =>
      match runSandboxOperation sandboxList sb.id resp with
      | .logged r =>
          let p := dispatchBatch sandboxList rest
          (r :: p.1, p.2)
      | .exited => ([], true)
      | .crashed => ([], true)

/-- The CodeVersion record, src/unnamed/part_001 lines 260 to 270. -/
structure CodeVersion where
  jsonType : String
  activation_time : String
  active : Bool
  cartridges : List String
  compatibility_mode : String
  id : String
  last_modification_time : String
  rollback : Bool
  web_dav_url : String
deriving DecidableEq

/-- The decision activateCodeVersion reaches before any remote call. -/
inductive ActivationResult where
  | notFound
  | alreadyActive (id : String)
  | issueActivation (id : String)
deriving DecidableEq

/-- Embeds the selection logic of activateCodeVersion, src/unnamed/part_001
lines 311 to 325. The JS reverse call on line 317 mutates the array the
caller passed in, so the model also returns the final state of that array.
notFound models the process exit on line 321; alreadyActive models the
early return on line 324 before any fetch; issueActivation means the PATCH
request on line 327 is issued for the chosen id. -/
def activateCodeVersion (allCodeVersions : List CodeVersion)
    (codeVersion : String) : ActivationResult × List CodeVersion :=
  match allCodeVersions.reverse.find? (fun cv => strIncludes cv.id codeVersion) with
  | none => (.notFound, allCodeVersions.reverse)
  | some cv =>
      if cv.active then (.alreadyActive cv.id, allCodeVersions.reverse)
      else (.issueActivation cv.id, allCodeVersions.reverse)

/-- A Temporal.PlainDate in the proleptic Gregorian calendar. -/
structure PlainDate where
  year : Nat
  month : Nat
  day : Nat
deriving DecidableEq

/-- Gregorian leap-year rule. -/
def isLeapYear (y : Nat) : Bool :=
  (y % 4 = 0 && y % 100 ≠ 0) || y % 400 = 0

/-- Number of days of a month of the Gregorian calendar. -/
def daysInMonth (y m : Nat) : Nat :=
  if m = 1 ∨ m = 3 ∨ m = 5 ∨ m = 7 ∨ m = 8 ∨ m = 10 ∨ m = 12 then 31
  else if m = 4 ∨ m = 6 ∨ m = 9 ∨ m = 11 then 30
  else if m = 2 then (if isLeapYear y then 29 else 28)
  else 0

/-- Temporal add of one month with the default constrain overflow rule. -/
def addOneMonth (d : PlainDate) : PlainDate :=
  if d.month = 12 then ⟨d.year + 1, 1, min d.day 31⟩
  else ⟨d.year, d.month + 1, min d.day (daysInMonth d.year (d.month + 1))⟩

/-- Temporal subtract of one month with the constrain overflow rule. -/
def subOneMonth (d : PlainDate) : PlainDate :=
  if d.month = 1 then ⟨d.year - 1, 12, min d.day 31⟩
  else ⟨d.year, d.month - 1, min d.day (daysInMonth d.year (d.month - 1))⟩

/-- Temporal subtract of one day. -/
def subOneDay (d : PlainDate) : PlainDate :=
  if 1 < d.day then ⟨d.year, d.month, d.day - 1⟩
  else if 1 < d.month then ⟨d.year, d.month - 1, daysInMonth d.year (d.month - 1)⟩
  else ⟨d.year - 1, 12, 31⟩

/-- Decimal rendering padded with leading zeros to the given width. -/
def padNum (width n : Nat) : String :=
  let s := toString n
  String.mk (List.replicate (width - s.length) '0') ++ s

/-- Temporal.PlainDate.prototype.toString, ISO year-month-day. -/
def formatPlainDate (d : PlainDate) : String :=
  padNum 4 d.year ++ "-" ++ padNum 2 d.month ++ "-" ++ padNum 2 d.day

/-- Numeric value of a decimal digit character. -/
def digitVal (c : Char) : Nat :=
  c.toNat - '0'.toNat

/-- Temporal.PlainDate.from on an ISO string; none models the RangeError
thrown on a string that is not a valid year-month-day date. -/
def parsePlainDate (s : String) : Option PlainDate :=
  match s.toList with
  | [y₁, y₂, y₃, y₄, h₁, m₁, m₂, h₂, d₁, d₂] =>
      if y₁.isDigit && y₂.isDigit && y₃.isDigit && y₄.isDigit && h₁ == '-' &&
          m₁.isDigit && m₂.isDigit && h₂ == '-' && d₁.isDigit && d₂.isDigit then
        let y := ((digitVal y₁ * 10 + digitVal y₂) * 10 + digitVal y₃) * 10 + digitVal y₄
        let m := digitVal m₁ * 10 + digitVal m₂
        let d := digitVal d₁ * 10 + digitVal d₂
        if 1 ≤ m ∧ m ≤ 12 ∧ 1 ≤ d ∧ d ≤ daysInMonth y m then some ⟨y, m, d⟩
        else none
      else none
  | _ => none

/-- The monthRegex test of src/unnamed/part_001 line 364: four digits, a
dash, two digits, anchored at both ends. -/
def monthRegexTest (s : String) : Bool :=
  match s.toList with
  | [y₁, y₂, y₃, y₄, h, m₁, m₂] =>
      y₁.isDigit && y₂.isDigit && y₃.isDigit && y₄.isDigit && h == '-' &&
        m₁.isDigit && m₂.isDigit
  | _ => false

/-- Shape of one date inside the fromToRegex of line 363: four digits, dash,
two digits, dash, two digits. -/
def dateShape (cs : List Char) : Bool :=
  match cs with
  | [y₁, y₂, y₃, y₄, h₁, m₁, m₂, h₂, d₁, d₂] =>
      y₁.isDigit && y₂.isDigit && y₃.isDigit && y₄.isDigit && h₁ == '-' &&
        m₁.isDigit && m₂.isDigit && h₂ == '-' && d₁.isDigit && d₂.isDigit
  | _ => false

/-- The fromToRegex test of src/unnamed/part_001 line 363: a ten-character
date, a colon, a ten-character date, anchored at both ends. -/
def fromToRegexTest (s : String) : Bool :=
  let cs := s.toList
  cs.length = 21 && dateShape (cs.take 10) && (cs.drop 10).head? == some ':' &&
    dateShape (cs.drop 11)

/-- Split of a character list at every occurrence of a separator, the
semantics of JS String.prototype.split with a one-character separator. -/
def splitOnChar (c : Char) : List Char → List (List Char)
  | [] => [[]]
  | x :: xs =>
      if x = c then [] :: splitOnChar c xs
      else
        match splitOnChar c xs with
        | [] => [[x]]
        | h :: t => (x :: h) :: t

/-- time.split on a one-character separator, returning strings. -/
def jsSplit (c : Char) (s : String) : List String :=
  (splitOnChar c s.toList).map (fun l => String.mk l)

/-- Embeds the time-range normalization of the cred action, src/unnamed/
part_001 lines 434 to 453, up to the single getRealmCredits call: the pair
of from and to strings that call receives. now is the current plain date
used by the last-month branch. none models the two crash paths: a month
string that is not a real month (Temporal.PlainDate.from throws) and a time
argument that matches none of the three shapes (the argument validator on
lines 426 to 433 has already rejected it). -/
def credNormalize (now : PlainDate) (time : String) : Option (String × String) :=
  if time = "last-month" then
    let firstOfThis : PlainDate := ⟨now.year, now.month, 1⟩
    let fromD := subOneMonth firstOfThis
    let toD := subOneDay (addOneMonth fromD)
    some (formatPlainDate fromD, formatPlainDate toD)
  else if monthRegexTest time then
    let fromStr := time ++ "-01"
    match parsePlainDate fromStr with
    | none => none
    | some d => some (fromStr, formatPlainDate (subOneDay (addOneMonth d)))
  else if fromToRegexTest time then
    match jsSplit ':' time with
    | f :: t :: _ => some (f, t)
    | _ => none
  else none

/-! Demonstration values used by the closed witness theorems. -/

/-- A store holding one well-formed cache entry under the sandboxList key. -/
def demoStore : String → Option RawStored :=
  fun k =>
    if k = "sandboxList" then some (.parsed (mkEntryJson (.str "cached") 1000))
    else none

/-- A store holding an unparsable string under the sandboxList key. -/
def corruptStore : String → Option RawStored :=
  fun k => if k = "sandboxList" then some .unparsable else none

/-- A store holding a parsable entry of the wrong shape. -/
def oddStore : String → Option RawStored :=
  fun k =>
    if k = "sandboxList" then some (.parsed (.obj [("foo", .num 1)]))
    else none

/-- A store holding a parsable entry whose exp is a numeric string. -/
def staleStore : String → Option RawStored :=
  fun k =>
    if k = "sandboxList" then
      some (.parsed (.obj
        [("value", .str "stale"), ("exp", .str "99999999999999")]))
    else none

/-- The empty store. -/
def emptyStore : String → Option RawStored := fun _ => none

/-- Field access helpers used in proofs: the written entry exposes its value
under the value key. -/
theorem jsGet_mkEntryJson_value (v : Json) (e : Int) :
    jsGet (mkEntryJson v e) "value" = some v := rfl

/-- The written entry exposes its expiry under the exp key. -/
theorem jsGet_mkEntryJson_exp (v : Json) (e : Int) :
    jsGet (mkEntryJson v e) "exp" = some (.num e) := rfl

/-- On a numeric exp the coerced comparison is the plain integer one. -/
theorem jsLt_num (now e : Int) : jsLt now (some (.num e)) = decide (now < e) := by
  unfold jsLt jsToNumber
  simp

/-- An absent exp property is undefined, and a NaN comparison is false. -/
theorem jsLt_undef (now : Int) : jsLt now none = false := rfl

/-- C1: with forceInvalidate false and a fresh stored entry, the cached value
is returned with no compute invocation and no store write; with no entry, an
expired entry, or forceInvalidate true, compute is invoked and on success its
value is stored under the key with expiry now plus ttl, and returned. -/
theorem useCachedResult_hit_and_miss (store : String → Option RawStored)
    (key : String) (now ttl : Int) (compute : Except String Json)
    (invalidate : Bool) :
    (∀ v e, invalidate = false →
       store key = some (.parsed (mkEntryJson v e)) → now < e →
       useCachedResult store key now ttl compute invalidate =
         ⟨.ok (some v), store, false⟩)
    ∧ ((invalidate = true ∨ store key = none ∨
          ∃ v e, store key = some (.parsed (mkEntryJson v e)) ∧ e ≤ now) →
       (useCachedResult store key now ttl compute invalidate).invoked = true ∧
       ∀ cv, compute = .ok cv →
         useCachedResult store key now ttl compute invalidate =
           ⟨.ok (some cv),
             updateStore store key (.parsed (mkEntryJson cv (now + ttl))),
             true⟩) := by
  constructor
  · intro v e hinv hstore hlt
    subst hinv
    simp only [useCachedResult, hstore]
    have hexp := jsGet_mkEntryJson_exp v e
    have hval := jsGet_mkEntryJson_value v e
    simp only [mkEntryJson] at hexp hval ⊢
    simp [jsLt_num, hexp, hval, hlt]
  · intro hcase
    have hred : useCachedResult store key now ttl compute invalidate =
        match compute with
        | .error e => ⟨.error (.computeFailed e), store, true⟩
        | .ok v =>
            ⟨.ok (some v),
              updateStore store key (.parsed (mkEntryJson v (now + ttl))),
              true⟩ := by
      rcases hcase with hinv | hnone | ⟨v, e, hstore, hexp⟩
      · subst hinv
        simp only [useCachedResult]
        cases hs : store key with
        | none => rfl
        | some r => cases r <;> simp
      · simp only [useCachedResult, hnone]
      · simp only [useCachedResult, hstore]
        have he := jsGet_mkEntryJson_exp v e
        simp only [mkEntryJson] at he ⊢
        simp [jsLt_num, he, not_lt.mpr hexp]
    rw [hred]
    constructor
    · cases compute <;> rfl
    · intro cv hcv
      subst hcv
      rfl

/-- Witness for C1 at concrete inputs: a fresh entry is returned from the
cache untouched, and an expired entry causes a recompute and an overwrite. -/
theorem useCachedResult_hit_and_miss_witness :
    useCachedResult demoStore "sandboxList" 500 100 (.ok (.str "fresh")) false =
      ⟨.ok (some (.str "cached")), demoStore, false⟩ ∧
    useCachedResult demoStore "sandboxList" 2000 100 (.ok (.str "fresh")) false =
      ⟨.ok (some (.str "fresh")),
        updateStore demoStore "sandboxList"
          (.parsed (mkEntryJson (.str "fresh") 2100)),
        true⟩ := by
  constructor
  · exact (useCachedResult_hit_and_miss demoStore "sandboxList" 500 100
      (.ok (.str "fresh")) false).1 (.str "cached") 1000 rfl rfl (by decide)
  · have h := (useCachedResult_hit_and_miss demoStore "sandboxList" 2000 100
      (.ok (.str "fresh")) false).2
      (Or.inr (Or.inr ⟨.str "cached", 1000, rfl, by decide⟩))
    exact h.2 (.str "fresh") rfl

/-- C8: when the compute thunk fails, the store is left exactly as it was on
every path, and whenever the thunk was actually invoked its failure is what
the caller receives. -/
theorem useCachedResult_compute_fail (store : String → Option RawStored)
    (key : String) (now ttl : Int) (e : String) (invalidate : Bool) :
    (useCachedResult store key now ttl (.error e) invalidate).store = store ∧
    ((useCachedResult store key now ttl (.error e) invalidate).invoked = true →
      (useCachedResult store key now ttl (.error e) invalidate).result =
        .error (.computeFailed e)) := by
  simp only [useCachedResult]
  cases hs : store key with
  | none => exact ⟨rfl, fun _ => rfl⟩
  | some r =>
    cases r with
    | emptyStr => exact ⟨rfl, fun _ => rfl⟩
    | unparsable =>
      cases invalidate <;> simp
    | parsed j =>
      cases invalidate with
      | true => simp
      | false =>
        cases j <;> simp <;> split <;> simp

/-- Witness for C8 at a concrete input: a miss with a failing compute leaves
the store untouched and surfaces the compute failure. -/
theorem useCachedResult_compute_fail_witness :
    (useCachedResult emptyStore "k" 0 5 (.error "boom") false).store =
      emptyStore ∧
    (useCachedResult emptyStore "k" 0 5 (.error "boom") false).result =
      .error (.computeFailed "boom") := by
  refine ⟨(useCachedResult_compute_fail emptyStore "k" 0 5 "boom" false).1, ?_⟩
  exact (useCachedResult_compute_fail emptyStore "k" 0 5 "boom" false).2 rfl

/-- C4 counterexample: with an unparsable entry stored under the key and
forceInvalidate false, useCachedResult does not invoke compute and raises
the JSON.parse throw to the caller, instead of treating the entry as a miss
(there is no try block around JSON.parse on line 46). -/
theorem useCachedResult_corrupt_counterexample :
    (useCachedResult corruptStore "sandboxList" 0 10 (.ok (.str "fresh"))
        false).invoked = false ∧
    (useCachedResult corruptStore "sandboxList" 0 10 (.ok (.str "fresh"))
        false).result = .error .jsThrow :=
  ⟨rfl, rfl⟩

/-- C4 amended: a stored entry on which JSON.parse throws, or that parses to
JSON null (whose destructuring throws), makes the call fail with the thrown
error, with the store unchanged and compute never invoked; a parsable
non-null entry with no exp property at all is treated as a miss, because the
undefined exp compares false against the clock, causing a recompute whose
value is cached; but a parsable non-null entry whose exp property coerces,
under the ToNumber coercion of the JS relational comparison, to a number
above now is a cache hit returning the stored value, so a malformed entry is
not uniformly a miss. -/
theorem useCachedResult_malformed (store : String → Option RawStored)
    (key : String) (now ttl : Int) (cv : Json) (j : Json) :
    (store key = some .unparsable →
      useCachedResult store key now ttl (.ok cv) false =
        ⟨.error .jsThrow, store, false⟩) ∧
    (store key = some (.parsed .null) →
      useCachedResult store key now ttl (.ok cv) false =
        ⟨.error .jsThrow, store, false⟩) ∧
    (store key = some (.parsed j) → j ≠ .null → jsGet j "exp" = none →
      useCachedResult store key now ttl (.ok cv) false =
        ⟨.ok (some cv),
          updateStore store key (.parsed (mkEntryJson cv (now + ttl))),
          true⟩) ∧
    (store key = some (.parsed j) → j ≠ .null →
      jsLt now (jsGet j "exp") = true →
      useCachedResult store key now ttl (.ok cv) false =
        ⟨.ok (jsGet j "value"), store, false⟩) := by
  refine ⟨?_, ?_, ?_, ?_⟩
  · intro hstore
    simp [useCachedResult, hstore]
  · intro hstore
    simp [useCachedResult, hstore]
  · intro hstore hnull hexp
    have hlt : jsLt now (jsGet j "exp") = false := by rw [hexp]; rfl
    simp only [useCachedResult, hstore]
    cases j <;> simp_all
  · intro hstore hnull hlt
    simp only [useCachedResult, hstore]
    cases j <;> simp_all [jsLt_undef]

/-- Witness for the amended C4 at concrete inputs: an unparsable entry
raises the parse error, an entry with no exp property leads to recompute and
overwrite, and an entry whose exp is a large numeric string is a stale hit
under coercion. -/
theorem useCachedResult_malformed_witness :
    useCachedResult corruptStore "sandboxList" 7 10 (.ok (.str "fresh")) false =
      ⟨.error .jsThrow, corruptStore, false⟩ ∧
    useCachedResult oddStore "sandboxList" 7 10 (.ok (.str "fresh")) false =
      ⟨.ok (some (.str "fresh")),
        updateStore oddStore "sandboxList"
          (.parsed (mkEntryJson (.str "fresh") 17)),
        true⟩ ∧
    useCachedResult staleStore "sandboxList" 0 10 (.ok (.str "fresh")) false =
      ⟨.ok (some (.str "stale")), staleStore, false⟩ := by
  refine ⟨?_, ?_, ?_⟩
  · exact (useCachedResult_malformed corruptStore "sandboxList" 7 10
      (.str "fresh") (.obj [])).1 rfl
  · exact (useCachedResult_malformed oddStore "sandboxList" 7 10 (.str "fresh")
      (.obj [("foo", .num 1)])).2.2.1 rfl (by intro h; cases h) rfl
  · exact (useCachedResult_malformed staleStore "sandboxList" 0 10
      (.str "fresh")
      (.obj [("value", .str "stale"), ("exp", .str "99999999999999")])).2.2.2
      rfl (by intro h; cases h) (by decide)

/-- A sandbox record with the given id and host name and fixed filler in the
remaining fields, for concrete witnesses. -/
def mkSandbox (id hostName : String) : SandboxInfo :=
  ⟨id, "zzzz", "001", ⟨"app", "web"⟩, "medium", "started", "2024-01-01",
    "user", hostName, ⟨"bm", "ocapi", "impex", "code", "logs"⟩⟩

/-- Three sandboxes used by the witnesses. -/
def demoSandboxes : List SandboxInfo :=
  [mkSandbox "id1" "alpha.dev", mkSandbox "id2" "beta.dev",
    mkSandbox "id3" "alpine.dev"]

/-- C2: the resolver returns exactly the entities whose host name contains
the find string or whose id equals it, keeping the order of the cached list
(the result is a sublist); when nothing matches the two conditions the
result is empty by the same equivalence. -/
theorem getSandboxesByString_spec (sandboxList : List SandboxInfo)
    (findStr : String) :
    (getSandboxesByString sandboxList findStr).Sublist sandboxList ∧
    ∀ sb, sb ∈ getSandboxesByString sandboxList findStr ↔
      sb ∈ sandboxList ∧
        (strIncludes sb.hostName findStr = true ∨ sb.id = findStr) := by
  refine ⟨List.filter_sublist _, fun sb => ?_⟩
  simp [getSandboxesByString, List.mem_filter]

/-- Witness for C2 at a concrete list and find string. -/
theorem getSandboxesByString_spec_witness :
    (getSandboxesByString demoSandboxes "alp").Sublist demoSandboxes ∧
    (mkSandbox "id1" "alpha.dev" ∈ getSandboxesByString demoSandboxes "alp" ↔
      mkSandbox "id1" "alpha.dev" ∈ demoSandboxes ∧
        (strIncludes (mkSandbox "id1" "alpha.dev").hostName "alp" = true ∨
          (mkSandbox "id1" "alpha.dev").id = "alp")) :=
  ⟨(getSandboxesByString_spec demoSandboxes "alp").1,
    (getSandboxesByString_spec demoSandboxes "alp").2 _⟩

/-- C5: on a body code of 200 the fetched sandbox list is returned as a
permutation of the input data that is sorted ascending by host name,
whatever the input order was. -/
theorem getSandboxList_sorted (data : List SandboxInfo) :
    ∃ l, getSandboxList 200 data = some l ∧ l.Perm data ∧
      l.Sorted (fun a b => a.hostName ≤ b.hostName) := by
  have htrans : ∀ a b c : SandboxInfo,
      (fun a b : SandboxInfo => decide (a.hostName ≤ b.hostName)) a b →
      (fun a b : SandboxInfo => decide (a.hostName ≤ b.hostName)) b c →
      (fun a b : SandboxInfo => decide (a.hostName ≤ b.hostName)) a c := by
    intro a b c h₁ h₂
    simp only [decide_eq_true_eq] at h₁ h₂ ⊢
    exact le_trans h₁ h₂
  have htotal : ∀ a b : SandboxInfo,
      ((fun a b : SandboxInfo => decide (a.hostName ≤ b.hostName)) a b ||
        (fun a b : SandboxInfo => decide (a.hostName ≤ b.hostName)) b a) := by
    intro a b
    simp only [Bool.or_eq_true, decide_eq_true_eq]
    exact le_total a.hostName b.hostName
  refine ⟨data.mergeSort (fun a b => decide (a.hostName ≤ b.hostName)),
    by simp [getSandboxList], List.mergeSort_perm data _, ?_⟩
  have hs := List.sorted_mergeSort htrans htotal data
  exact hs.imp (fun h => by simpa using h)

/-- C10: every sandbox delivered by the resolver occurs in the list it was
resolved from, so the id lookup performed by runSandboxOperation and
getSandboxInfo succeeds on it and the host name access of the success path
cannot throw. -/
theorem resolved_lookup_safe (sandboxList : List SandboxInfo)
    (findStr : String) (sb : SandboxInfo)
    (h : sb ∈ getSandboxesByString sandboxList findStr) :
    (sandboxList.find? (fun x => x.id == sb.id)).isSome ∧
    ∀ resp, runSandboxOperation sandboxList sb.id resp ≠ .crashed := by
  have hmem : sb ∈ sandboxList := by
    unfold getSandboxesByString at h
    exact List.mem_of_mem_filter h
  have hfind : (sandboxList.find? (fun x => x.id == sb.id)).isSome := by
    rw [List.find?_isSome]
    exact ⟨sb, hmem, by simp⟩
  refine ⟨hfind, fun resp => ?_⟩
  unfold runSandboxOperation
  split
  · intro hc; cases hc
  · split
    · obtain ⟨x, hx⟩ := Option.isSome_iff_exists.mp hfind
      rw [hx]
      intro hc; cases hc
    · intro hc; cases hc

/-- Witness for C10 at a concrete resolver output. -/
theorem resolved_lookup_safe_witness :
    (demoSandboxes.find?
      (fun x => x.id == (mkSandbox "id1" "alpha.dev").id)).isSome ∧
    runSandboxOperation demoSandboxes (mkSandbox "id1" "alpha.dev").id
      ⟨200, 201, ""⟩ ≠ .crashed := by
  have h := resolved_lookup_safe demoSandboxes "alp" (mkSandbox "id1" "alpha.dev")
    (by decide)
  exact ⟨h.1, h.2 ⟨200, 201, ""⟩⟩

/-- Predicate picking the failure outcomes of a batch. -/
def isFailureOutcome : SandboxOpResult → Bool
  | .failure _ _ _ => true
  | _ => false

/-- Predicate picking the success outcomes of a batch. -/
def isSuccessOutcome : SandboxOpResult → Bool
  | .success _ => true
  | _ => false

/-- Two targets whose first operation call comes back with HTTP status 500
and whose second would succeed. -/
def demoBatchTargets : List (SandboxInfo × OperationResponse) :=
  [(mkSandbox "id1" "alpha.dev", ⟨500, 0, "server error"⟩),
    (mkSandbox "id2" "beta.dev", ⟨200, 201, ""⟩)]

/-- C3 counterexample: in a batch of two targets where the first operation
call returns HTTP status 500, the process exits at once (lines 178 to 183 of
src/unnamed/part_001), no per-entity outcome is recorded and the second
target is never attempted, refuting the claim that one failing target never
terminates processing of the remaining ones. -/
theorem dispatchBatch_counterexample :
    dispatchBatch demoSandboxes demoBatchTargets = ([], true) ∧
    (dispatchBatch demoSandboxes demoBatchTargets).1.length <
      demoBatchTargets.length := by
  constructor
  · rfl
  · decide

/-- C3 amended: as long as every operation call in the batch comes back with
HTTP status 200 or 201 (and every body-level success finds its target in the
cached list), all N targets are attempted in order, each one is reported
individually, and the outcome holds one failure entry per target whose body
code differs from 201 and one success entry per target whose body code is
201; a body-level failure never halts the remaining targets. A target whose
call returns any other HTTP status instead terminates the whole process and
the remaining targets are not attempted. -/
theorem dispatchBatch_fail_partial (sandboxList : List SandboxInfo)
    (targets : List (SandboxInfo × OperationResponse))
    (hok : ∀ p ∈ targets, p.2.status = 200 ∨ p.2.status = 201)
    (hfound : ∀ p ∈ targets, p.2.code = 201 →
      (sandboxList.find? (fun sb => sb.id == p.1.id)).isSome) :
    (dispatchBatch sandboxList targets).2 = false ∧
    (dispatchBatch sandboxList targets).1.length = targets.length ∧
    (dispatchBatch sandboxList targets).1.countP isFailureOutcome =
      targets.countP (fun p => decide (p.2.code ≠ 201)) ∧
    (dispatchBatch sandboxList targets).1.countP isSuccessOutcome =
      targets.countP (fun p => decide (p.2.code = 201)) := by
  induction targets with
  | nil => simp [dispatchBatch]
  | cons hd tl ih =>
    obtain ⟨sb, resp⟩ := hd
    have hst := hok (sb, resp) (List.mem_cons_self _ _)
    have hnot : ¬(resp.status ≠ 200 ∧ resp.status ≠ 201) := by
      have h2 : resp.status = 200 ∨ resp.status = 201 := hst
      omega
    have ihh := ih (fun p hp => hok p (List.mem_cons_of_mem _ hp))
      (fun p hp => hfound p (List.mem_cons_of_mem _ hp))
    by_cases hcode : resp.code = 201
    · have hf := hfound (sb, resp) (List.mem_cons_self _ _) hcode
      obtain ⟨x, hx⟩ := Option.isSome_iff_exists.mp hf
      have hrun : runSandboxOperation sandboxList sb.id resp =
          .logged (.success x.hostName) := by
        unfold runSandboxOperation
        rw [if_neg hnot, if_pos hcode, hx]
      simp only [dispatchBatch, hrun]
      refine ⟨ihh.1, ?_, ?_, ?_⟩
      · simpa using ihh.2.1
      · simpa [List.countP_cons, isFailureOutcome, hcode] using ihh.2.2.1
      · simpa [List.countP_cons, isSuccessOutcome, hcode] using ihh.2.2.2
    · have hrun : ∃ hn, runSandboxOperation sandboxList sb.id resp =
          .logged (.failure hn resp.code resp.errorMessage) := by
        unfold runSandboxOperation
        rw [if_neg hnot, if_neg hcode]
        exact ⟨_, rfl⟩
      obtain ⟨hn, hrun⟩ := hrun
      simp only [dispatchBatch, hrun]
      refine ⟨ihh.1, ?_, ?_, ?_⟩
      · simpa using ihh.2.1
      · simpa [List.countP_cons, isFailureOutcome, hcode] using ihh.2.2.1
      · simpa [List.countP_cons, isSuccessOutcome, hcode] using ihh.2.2.2

/-- Three targets whose middle operation call fails at body level only. -/
def demoPartialTargets : List (SandboxInfo × OperationResponse) :=
  [(mkSandbox "id1" "alpha.dev", ⟨200, 201, ""⟩),
    (mkSandbox "id2" "beta.dev", ⟨200, 400, "quota exceeded"⟩),
    (mkSandbox "id3" "alpine.dev", ⟨200, 201, ""⟩)]

/-- Witness for the amended C3: with three targets whose middle one fails at
body level, all three are attempted and the outcome holds exactly one
failure entry and two success entries. -/
theorem dispatchBatch_fail_partial_witness :
    (dispatchBatch demoSandboxes demoPartialTargets).2 = false ∧
    (dispatchBatch demoSandboxes demoPartialTargets).1.length = 3 ∧
    (dispatchBatch demoSandboxes demoPartialTargets).1.countP
      isFailureOutcome = 1 ∧
    (dispatchBatch demoSandboxes demoPartialTargets).1.countP
      isSuccessOutcome = 2 := by
  have h := dispatchBatch_fail_partial demoSandboxes demoPartialTargets
    (by decide) (by decide)
  refine ⟨h.1, ?_, ?_, ?_⟩
  · rw [h.2.1]; rfl
  · rw [h.2.2.1]; rfl
  · rw [h.2.2.2]; rfl

/-- In a list whose key is pairwise descending, the first element found by a
predicate has a key at least as large as that of every other element
satisfying the predicate. -/
theorem find?_max_of_desc {α : Type} (key : α → String) (p : α → Bool) :
    ∀ l : List α, l.Pairwise (fun a b => key b ≤ key a) →
      ∀ c, l.find? p = some c → ∀ w ∈ l, p w = true → key w ≤ key c := by
  intro l
  induction l with
  | nil => intro _ c hc; simp at hc
  | cons a t ih =>
    intro hp c hfind w hw hpw
    cases hpa : p a with
    | true =>
      rw [List.find?_cons_of_pos _ hpa] at hfind
      obtain rfl := Option.some.inj hfind
      rcases List.mem_cons.mp hw with rfl | hw'
      · exact le_refl _
      · exact (List.pairwise_cons.mp hp).1 w hw'
    | false =>
      rw [List.find?_cons_of_neg _ (by simp [hpa])] at hfind
      rcases List.mem_cons.mp hw with rfl | hw'
      · rw [hpa] at hpw; cases hpw
      · exact ih (List.pairwise_cons.mp hp).2 c hfind w hw' hpw

/-- Concrete string comparisons, settled through the character lists (the
byte-level order of String is not reducible by the kernel). -/
theorem string_le_of_lists (a b : String)
    (h : decide (a.toList ≤ b.toList) = true) : a ≤ b :=
  String.le_iff_toList_le.mpr (of_decide_eq_true h)

/-- C6: on a code-version list sorted ascending by last modification time in
which at least one version id contains the find string, the activation logic
selects a matching version whose last modification time is maximal among all
matches (the first match of the reversed list); when the selected version is
already active the outcome is the informational alreadyActive result and no
activation request constructor is produced, otherwise the activation request
is issued for it. -/
theorem activateCodeVersion_selects (l : List CodeVersion) (s : String)
    (hsorted : l.Pairwise
      (fun a b => a.last_modification_time ≤ b.last_modification_time))
    (hmatch : ∃ v ∈ l, strIncludes v.id s = true) :
    ∃ cv ∈ l, strIncludes cv.id s = true ∧
      (∀ w ∈ l, strIncludes w.id s = true →
        w.last_modification_time ≤ cv.last_modification_time) ∧
      (activateCodeVersion l s).1 =
        (if cv.active then ActivationResult.alreadyActive cv.id
         else ActivationResult.issueActivation cv.id) := by
  obtain ⟨v, hv, hpv⟩ := hmatch
  have hex : (l.reverse.find? (fun cv => strIncludes cv.id s)).isSome := by
    rw [List.find?_isSome]
    exact ⟨v, List.mem_reverse.mpr hv, hpv⟩
  obtain ⟨cv, hfind⟩ := Option.isSome_iff_exists.mp hex
  have hdesc : l.reverse.Pairwise
      (fun a b => a.last_modification_time ≥ b.last_modification_time) := by
    rw [List.pairwise_reverse]
    exact hsorted
  have hpcv : strIncludes cv.id s = true := by
    have h := List.find?_some hfind
    simpa using h
  refine ⟨cv, List.mem_reverse.mp (List.mem_of_find?_eq_some hfind),
    hpcv, ?_, ?_⟩
  · intro w hw hpw
    exact find?_max_of_desc (fun x => x.last_modification_time) _ l.reverse
      hdesc cv hfind w (List.mem_reverse.mpr hw) hpw
  · unfold activateCodeVersion
    rw [hfind]
    cases hact : cv.active <;> simp [hact]

/-- Code versions used by the witnesses: ascending last modification times,
two of them matching the string v2, the most recent match already active. -/
def demoCodeVersions : List CodeVersion :=
  [⟨"code_version", "2024-01-05", false, ["app"], "22.7", "v1-old",
      "2024-01-01", false, "dav1"⟩,
    ⟨"code_version", "2024-02-05", false, ["app"], "22.7", "v2-old",
      "2024-02-01", false, "dav2"⟩,
    ⟨"code_version", "2024-03-05", true, ["app"], "22.7", "v2-new",
      "2024-03-01", false, "dav3"⟩]

/-- Witness for C6 at a concrete list: the most recent of the two matches of
v2 is selected and, being already active, yields the informational result. -/
theorem activateCodeVersion_selects_witness :
    ∃ cv ∈ demoCodeVersions, strIncludes cv.id "v2" = true ∧
      (∀ w ∈ demoCodeVersions, strIncludes w.id "v2" = true →
        w.last_modification_time ≤ cv.last_modification_time) ∧
      (activateCodeVersion demoCodeVersions "v2").1 =
        (if cv.active then ActivationResult.alreadyActive cv.id
         else ActivationResult.issueActivation cv.id) :=
  activateCodeVersion_selects demoCodeVersions "v2"
    (by
      refine List.Pairwise.cons ?_ (List.Pairwise.cons ?_
        (List.Pairwise.cons ?_ List.Pairwise.nil)) <;>
        intro b hb <;> fin_cases hb <;>
        exact string_le_of_lists _ _ (by decide))
    (by decide)

/-- C7 counterexample: after the activation call returns, the array the
caller passed in is no longer in its original ascending order, because the
JS reverse call on line 317 of src/unnamed/part_001 mutates it in place. -/
theorem activateCodeVersion_mutates_counterexample :
    (activateCodeVersion demoCodeVersions "v2").2 ≠ demoCodeVersions := by
  decide

/-- C7 amended: activateCodeVersion reverses the array it is given in place;
after the call the caller holds the same elements but in reversed order, so
an ascending-by-last-modification list comes back descending, not in its
original order. -/
theorem activateCodeVersion_reverses (l : List CodeVersion) (s : String)
    (hsorted : l.Pairwise
      (fun a b => a.last_modification_time ≤ b.last_modification_time)) :
    (activateCodeVersion l s).2.Perm l ∧
    (activateCodeVersion l s).2.Pairwise
      (fun a b => b.last_modification_time ≤ a.last_modification_time) := by
  have hsnd : (activateCodeVersion l s).2 = l.reverse := by
    unfold activateCodeVersion
    cases hf : l.reverse.find? (fun cv => strIncludes cv.id s) with
    | none => rfl
    | some cv => cases hact : cv.active <;> simp [hact]
  rw [hsnd]
  exact ⟨List.reverse_perm l, List.pairwise_reverse.mpr hsorted⟩

/-- Witness for the amended C7 at a concrete ascending list. -/
theorem activateCodeVersion_reverses_witness :
    (activateCodeVersion demoCodeVersions "v2").2.Perm demoCodeVersions ∧
    (activateCodeVersion demoCodeVersions "v2").2.Pairwise
      (fun a b => b.last_modification_time ≤ a.last_modification_time) :=
  activateCodeVersion_reverses demoCodeVersions "v2"
    (by
      refine List.Pairwise.cons ?_ (List.Pairwise.cons ?_
        (List.Pairwise.cons ?_ List.Pairwise.nil)) <;>
        intro b hb <;> fin_cases hb <;>
        exact string_le_of_lists _ _ (by decide))

/-- Every real month has at least one day. -/
theorem daysInMonth_pos (y m : Nat) (h1 : 1 ≤ m) (h2 : m ≤ 12) :
    1 ≤ daysInMonth y m := by
  interval_cases m
  all_goals simp [daysInMonth]
  all_goals cases isLeapYear y <;> simp

/-- December has 31 days. -/
theorem daysInMonth_twelve (y : Nat) : daysInMonth y 12 = 31 := by
  simp [daysInMonth]

/-- Adding one month to the first of a month and then subtracting one day
lands on the last day of the original month. -/
theorem subOneDay_addOneMonth (y m : Nat) (h1 : 1 ≤ m) (h2 : m ≤ 12) :
    subOneDay (addOneMonth ⟨y, m, 1⟩) = ⟨y, m, daysInMonth y m⟩ := by
  by_cases h12 : m = 12
  · subst h12
    have : addOneMonth ⟨y, 12, 1⟩ = ⟨y + 1, 1, 1⟩ := by
      simp [addOneMonth]
    rw [this]
    simp [subOneDay, daysInMonth_twelve]
  · have hpos : 1 ≤ daysInMonth y (m + 1) :=
      daysInMonth_pos y (m + 1) (by omega) (by omega)
    have ha : addOneMonth ⟨y, m, 1⟩ = ⟨y, m + 1, 1⟩ := by
      simp [addOneMonth, h12, Nat.min_eq_left hpos]
    rw [ha]
    have hlt : 1 < m + 1 := by omega
    simp [subOneDay, hlt]

/-- A character list of date shape has ten characters. -/
theorem dateShape_length (cs : List Char) (h : dateShape cs = true) :
    cs.length = 10 := by
  unfold dateShape at h
  split at h
  · simp_all
  · cases h

/-- A character list of date shape holds no colon. -/
theorem dateShape_no_colon (cs : List Char) (h : dateShape cs = true) :
    ':' ∉ cs := by
  unfold dateShape at h
  split at h
  · simp only [Bool.and_eq_true] at h
    obtain ⟨⟨⟨⟨⟨⟨⟨⟨⟨hy₁, hy₂⟩, hy₃⟩, hy₄⟩, hh₁⟩, hm₁⟩, hm₂⟩, hh₂⟩, hd₁⟩, hd₂⟩ := h
    intro hmem
    simp only [List.mem_cons, List.not_mem_nil, or_false] at hmem
    rcases hmem with h | h | h | h | h | h | h | h | h | h
    · rw [← h] at hy₁; exact absurd hy₁ (by decide)
    · rw [← h] at hy₂; exact absurd hy₂ (by decide)
    · rw [← h] at hy₃; exact absurd hy₃ (by decide)
    · rw [← h] at hy₄; exact absurd hy₄ (by decide)
    · rw [← h] at hh₁; exact absurd hh₁ (by decide)
    · rw [← h] at hm₁; exact absurd hm₁ (by decide)
    · rw [← h] at hm₂; exact absurd hm₂ (by decide)
    · rw [← h] at hh₂; exact absurd hh₂ (by decide)
    · rw [← h] at hd₁; exact absurd hd₁ (by decide)
    · rw [← h] at hd₂; exact absurd hd₂ (by decide)
  · cases h

/-- A string matching the month regex has seven characters. -/
theorem monthRegexTest_length (s : String) (h : monthRegexTest s = true) :
    s.toList.length = 7 := by
  unfold monthRegexTest at h
  split at h
  · simp_all
  · cases h

/-- One-step equation of splitOnChar on a cons cell. -/
theorem splitOnChar_cons_eq (c x : Char) (xs : List Char) :
    splitOnChar c (x :: xs) =
      if x = c then [] :: splitOnChar c xs
      else
        match splitOnChar c xs with
        | [] => [[x]]
        | h :: t => (x :: h) :: t := rfl

/-- splitOnChar never produces the empty list. -/
theorem splitOnChar_ne_nil (c : Char) (l : List Char) :
    splitOnChar c l ≠ [] := by
  cases l with
  | nil => simp [splitOnChar]
  | cons x xs =>
    unfold splitOnChar
    by_cases hx : x = c
    · simp [hx]
    · rw [if_neg hx]
      cases hrec : splitOnChar c xs <;> simp

/-- A list without the separator splits into itself. -/
theorem splitOnChar_of_no (c : Char) (l : List Char) (h : c ∉ l) :
    splitOnChar c l = [l] := by
  induction l with
  | nil => rfl
  | cons x xs ih =>
    have hx : ¬(x = c) := by
      intro he; subst he; exact h (List.mem_cons_self x xs)
    have hxs : c ∉ xs := fun hm => h (List.mem_cons_of_mem x hm)
    unfold splitOnChar
    rw [if_neg hx, ih hxs]

/-- Splitting at the single separator between two clean halves yields the
two halves. -/
theorem splitOnChar_append (c : Char) (l₁ l₂ : List Char) (h : c ∉ l₁) :
    splitOnChar c (l₁ ++ c :: l₂) = l₁ :: splitOnChar c l₂ := by
  induction l₁ with
  | nil =>
    simp only [List.nil_append, splitOnChar_cons_eq]
    simp
  | cons x xs ih =>
    have hx : ¬(x = c) := by
      intro he; subst he; exact h (List.mem_cons_self x xs)
    have hxs : c ∉ xs := fun hm => h (List.mem_cons_of_mem x hm)
    simp only [List.cons_append, splitOnChar_cons_eq]
    rw [if_neg hx, ih hxs]

/-- C9: a month argument of shape year-month with a real month number
normalizes to the pair of the first day string (the argument with the day
suffix appended) and the last calendar day of that month; an explicit
from-colon-to range argument is split at the colon and passed through
verbatim. -/
theorem credNormalize_month_and_range :
    (∀ (now : PlainDate) (time : String) (y₁ y₂ y₃ y₄ m₁ m₂ : Char),
      time.toList = [y₁, y₂, y₃, y₄, '-', m₁, m₂] →
      (y₁.isDigit && y₂.isDigit && y₃.isDigit && y₄.isDigit &&
        m₁.isDigit && m₂.isDigit) = true →
      1 ≤ digitVal m₁ * 10 + digitVal m₂ →
      digitVal m₁ * 10 + digitVal m₂ ≤ 12 →
      credNormalize now time =
        some (time ++ "-01",
          formatPlainDate
            ⟨((digitVal y₁ * 10 + digitVal y₂) * 10 + digitVal y₃) * 10 +
                digitVal y₄,
              digitVal m₁ * 10 + digitVal m₂,
              daysInMonth
                (((digitVal y₁ * 10 + digitVal y₂) * 10 + digitVal y₃) * 10 +
                  digitVal y₄)
                (digitVal m₁ * 10 + digitVal m₂)⟩)) ∧
    (∀ (now : PlainDate) (f t : String),
      dateShape f.toList = true → dateShape t.toList = true →
      credNormalize now (f ++ ":" ++ t) = some (f, t)) := by
  constructor
  · intro now time y₁ y₂ y₃ y₄ m₁ m₂ hlist hdig hm1 hm2
    simp only [Bool.and_eq_true] at hdig
    obtain ⟨⟨⟨⟨⟨hy₁, hy₂⟩, hy₃⟩, hy₄⟩, hdm₁⟩, hdm₂⟩ := hdig
    have hne : time ≠ "last-month" := by
      intro he
      have hL : ("last-month").toList.length = 10 := rfl
      rw [he] at hlist
      rw [hlist] at hL
      simp at hL
    have hmonth : monthRegexTest time = true := by
      unfold monthRegexTest
      rw [hlist]
      simp [hy₁, hy₂, hy₃, hy₄, hdm₁, hdm₂]
    have happ : (time ++ "-01").toList =
        [y₁, y₂, y₃, y₄, '-', m₁, m₂, '-', '0', '1'] := by
      have h1 : (time ++ "-01").toList = time.toList ++ "-01".toList := by
        simp [String.toList]
      rw [h1, hlist]
      rfl
    have hD : digitVal '0' * 10 + digitVal '1' = 1 := by decide
    have hdm : 1 ≤ daysInMonth
        (((digitVal y₁ * 10 + digitVal y₂) * 10 + digitVal y₃) * 10 +
          digitVal y₄)
        (digitVal m₁ * 10 + digitVal m₂) :=
      daysInMonth_pos _ _ hm1 hm2
    have hparse : parsePlainDate (time ++ "-01") =
        some ⟨((digitVal y₁ * 10 + digitVal y₂) * 10 + digitVal y₃) * 10 +
            digitVal y₄,
          digitVal m₁ * 10 + digitVal m₂, 1⟩ := by
      unfold parsePlainDate
      rw [happ]
      simp only [hy₁, hy₂, hy₃, hy₄, hdm₁, hdm₂, Bool.and_true, Bool.true_and]
      rw [if_pos (by decide)]
      rw [hD]
      rw [if_pos ⟨hm1, hm2, le_refl 1, hdm⟩]
    unfold credNormalize
    rw [if_neg hne]
    simp only [hmonth, if_true]
    rw [hparse]
    simp only
    rw [subOneDay_addOneMonth _ _ hm1 hm2]
  · intro now f t hf ht
    have hfl : f.toList.length = 10 := dateShape_length _ hf
    have htl : t.toList.length = 10 := dateShape_length _ ht
    have happ : (f ++ ":" ++ t).toList = f.toList ++ ':' :: t.toList := by
      simp [String.toList]
    have hne : (f ++ ":" ++ t) ≠ "last-month" := by
      intro he
      have h2 : f.toList ++ ':' :: t.toList = "last-month".toList := by
        rw [← happ, he]
      have h3 := congrArg List.length h2
      have h4 : ("last-month").toList.length = 10 := rfl
      rw [h4] at h3
      simp only [List.length_append, List.length_cons, hfl, htl] at h3
      omega
    have hmonthF : monthRegexTest (f ++ ":" ++ t) = false := by
      cases hm : monthRegexTest (f ++ ":" ++ t) with
      | false => rfl
      | true =>
        have hl := monthRegexTest_length _ hm
        rw [happ] at hl
        simp only [List.length_append, List.length_cons, hfl, htl] at hl
        omega
    have hfromTo : fromToRegexTest (f ++ ":" ++ t) = true := by
      simp only [fromToRegexTest]
      rw [happ]
      have h21 : (f.toList ++ ':' :: t.toList).length = 21 := by
        simp only [List.length_append, List.length_cons, hfl, htl]
      have htake : (f.toList ++ ':' :: t.toList).take 10 = f.toList := by
        rw [← hfl]
        exact List.take_left f.toList (':' :: t.toList)
      have hdrop : (f.toList ++ ':' :: t.toList).drop 10 = ':' :: t.toList := by
        rw [← hfl]
        exact List.drop_left f.toList (':' :: t.toList)
      have hdrop11 : (f.toList ++ ':' :: t.toList).drop 11 = t.toList := by
        have hre : f.toList ++ ':' :: t.toList = (f.toList ++ [':']) ++ t.toList := by
          simp
        rw [hre]
        have hlen : (f.toList ++ [':']).length = 11 := by
          rw [List.length_append, hfl]
          rfl
        rw [← hlen]
        exact List.drop_left _ _
      rw [h21, htake, hdrop, hdrop11, hf, ht]
      rfl
    have hsplit : jsSplit ':' (f ++ ":" ++ t) = [f, t] := by
      unfold jsSplit
      rw [happ]
      rw [splitOnChar_append ':' f.toList t.toList (dateShape_no_colon _ hf)]
      rw [splitOnChar_of_no ':' t.toList (dateShape_no_colon _ ht)]
      simp
    unfold credNormalize
    rw [if_neg hne]
    simp only [hmonthF, Bool.false_eq_true, if_false]
    simp only [hfromTo, if_true]
    rw [hsplit]

/-- Witness for C9 at the concrete arguments named by the spec: the month
2024-03 normalizes to its first and last day, and an explicit range is
passed through verbatim. -/
theorem credNormalize_month_and_range_witness :
    credNormalize ⟨2024, 5, 5⟩ "2024-03" = some ("2024-03-01", "2024-03-31") ∧
    credNormalize ⟨2024, 5, 5⟩ "2024-01-15:2024-02-10" =
      some ("2024-01-15", "2024-02-10") := by
  constructor
  · have h := credNormalize_month_and_range.1 ⟨2024, 5, 5⟩ "2024-03"
      '2' '0' '2' '4' '0' '3' rfl (by decide) (by decide) (by decide)
    rw [h]
    rfl
  · have h := credNormalize_month_and_range.2 ⟨2024, 5, 5⟩
      "2024-01-15" "2024-02-10" (by decide) (by decide)
    rw [← h]
    rfl

end SfccD
